import Mathlib

/-!
Verification of the library-loading subsystem of mumbledj (`bot/library.go`).

The Go source is shallowly embedded: the filesystem is modelled as a tree of
directory entries (`DirEntry`), `os.ReadDir` becomes the listing carried by a
directory node, and Go's wrapped errors (`fmt.Errorf` with `%w` / `%s`)
become the `GoErr` type, where `%w` preserves the wrapped error as structure
and `%s` flattens it into the message string.
-/

namespace Mumbledj

/-- Embedding of the extension extraction `strings.Cut(f.Name(), ".")`:
the text after the first `.` (the source discards the before-part and the
found flag). A name with no `.` yields the empty string. -/
def cutExt : List Char → String
  | [] => ""
  | c :: rest => if c = '.' then String.mk rest else cutExt rest

/-- Extension of a filename, per the source's `strings.Cut(f.Name(), ".")`. -/
def extOf (name : String) : String := cutExt name.data

/-- Embedding of `filepath.Join(dir, name)` for the cleaned inputs that occur
here (directory-entry names never contain a separator or dot segments, so
Go's `Clean` normalisation is the identity on the joined string). -/
def filepathJoin (dir name : String) : String :=
  if dir = "" then name
  else if name = "" then dir
  else dir ++ "/" ++ name

/-- Embedding of `filepath.Base`: the last element of the path after
dropping trailing slashes; `"."` for the empty path, `"/"` for all-slashes. -/
def filepathBase (path : String) : String :=
  if path = "" then "."
  else
    let r := path.data.reverse.dropWhile (fun c => c = '/')
    if r = [] then "/"
    else String.mk (r.takeWhile (fun c => c ≠ '/')).reverse

/-- A POSIX path is absolute when it starts with a separator. -/
def isAbs (s : String) : Bool :=
  match s.data with
  | [] => false
  | c :: _ => c = '/'

/-- Go error values as produced by this file: a plain error with a message
(`fmt.Errorf` without `%w`, and the package-level sentinels), or an error
wrapping another (`fmt.Errorf` with `%w`, keeping the prefix text printed
before the wrapped error's own message). -/
inductive GoErr where
  | base (msg : String)
  | wrap (pre : String) (inner : GoErr)
deriving DecidableEq, Repr

/-- The full message of an error, as `Error()` would print it. -/
def GoErr.message : GoErr → String
  | .base m => m
  | .wrap pre inner => pre ++ inner.message

/-- Embedding of `errors.Is(e, target)`: `e` equals the target or some
error in its unwrap chain does. Sentinels are distinguished by their
message, which is faithful here because each sentinel's text is unique. -/
def GoErr.is (e target : GoErr) : Bool :=
  if e = target then true
  else
    match e with
    | .wrap _ inner => inner.is target
    | .base _ => false

/-- The innermost error of the unwrap chain. -/
def GoErr.rootCause : GoErr → GoErr
  | .base m => .base m
  | .wrap _ inner => inner.rootCause

/-- Sentinel `ErrExtensionSet` from the source. -/
def ErrExtensionSet : GoErr :=
  .base "empty extension set: at least one media extension must be specified"

/-- Sentinel `ErrExtensionsOverlap` from the source. -/
def ErrExtensionsOverlap : GoErr :=
  .base "playlist extension set may not overlap media file extension set"

/-- Sentinel `ErrEmptyLibrary` from the source. -/
def ErrEmptyLibrary : GoErr :=
  .base "library is empty"

/-- A filesystem entry as surfaced by `os.ReadDir`: a regular file, or a
directory together with its own listing (in listing order). -/
inductive DirEntry where
  | file (name : String)
  | dir (name : String) (listing : List DirEntry)
deriving Repr

/-- Name of a directory entry (`f.Name()`). -/
def DirEntry.name : DirEntry → String
  | .file n => n
  | .dir n _ => n

/-- Embedding of `f.IsDir()`. -/
def DirEntry.isDir : DirEntry → Bool
  | .file _ => false
  | .dir _ _ => true

mutual
/-- The `Playable` interface's implementors: `mediaFile` (absolute path and
title), `playlistFile` (referenced paths and title), and a `Library` used
as a `Playable`. -/
inductive Playable where
  | media (path title : String) : Playable
  | playlist (paths : List String) (title : String) : Playable
  | lib (l : Library) : Playable

/-- The `Library` struct: playable `entries` found directly in the
directory, `nested` child libraries, and the `root` directory path. -/
inductive Library where
  | mk (entries : List Playable) (nested : List Library) (root : String) : Library
end

/-- Field accessor `l.entries`. -/
def Library.entries : Library → List Playable
  | .mk e _ _ => e

/-- Field accessor `l.nested`. -/
def Library.nested : Library → List Library
  | .mk _ n _ => n

/-- Field accessor `l.root` (also the `Root()` accessor). -/
def Library.root : Library → String
  | .mk _ _ r => r

/-- Embedding of `append(l.entries, p)` as performed by `loadSingleFile` /
`loadPlaylistFile`. -/
def Library.addEntry : Library → Playable → Library
  | .mk e n r, p => .mk (e ++ [p]) n r

/-- Embedding of `append(l.nested, nest)` from the directory branch. -/
def Library.addNested : Library → Library → Library
  | .mk e n r, x => .mk e (n ++ [x]) r

/-- Accessor `Library.Files()`: collects the paths of exactly those entries that are
`mediaFile`s (the type assertion `e.(mediaFile)` fails on playlist files
and on any other implementor). -/
def Library.Files (l : Library) : List String :=
  l.entries.filterMap fun p =>
    match p with
    | .media path _ => some path
    | _ => none

/-- Accessor `Library.Title()`: base name of the root path. -/
def Library.Title (l : Library) : String :=
  filepathBase l.root

/-- Accessor `Library.Nested()`. -/
def Library.Nested (l : Library) : List Library :=
  l.nested

/-- Dynamic dispatch of `Files()` over the three implementors:
`mediaFile.Files` returns the one path, `playlistFile.Files` returns the
parsed paths, `Library.Files` filters media entries. -/
def Playable.Files : Playable → List String
  | .media p _ => [p]
  | .playlist ps _ => ps
  | .lib l => l.Files

/-- Dynamic dispatch of `Title()` over the three implementors. -/
def Playable.Title : Playable → String
  | .media _ t => t
  | .playlist _ t => t
  | .lib l => l.Title

/-- Holds exactly on the `Library` implementor of `Playable` (a
"directory" entry, which the source never stores in `entries`). -/
def Playable.isLib : Playable → Bool
  | .lib _ => true
  | _ => false

/-- Holds exactly on `mediaFile` entries. -/
def Playable.isMedia : Playable → Bool
  | .media _ _ => true
  | _ => false

/-- Holds exactly on `playlistFile` entries. -/
def Playable.isPlaylist : Playable → Bool
  | .playlist _ _ => true
  | _ => false

mutual
/-- Embedding of `NewLibrary(root, extensions, playlistExtensions)`.
`fs` is the listing `os.ReadDir(root)` returns (the read itself is assumed
to succeed; I/O failures are outside the model). Mirrors the source order:
empty-extension-set check, overlap check while building the playlist
lookup table, empty-listing check, then the entry loop. -/
def NewLibrary (root : String) (extensions playlistExtensions : List String)
    (fs : List DirEntry) : Library × Option GoErr :=
  let lib := Library.mk [] [] root
  if extensions = [] then
    (lib, some (.wrap ("open library " ++ root ++ ": ") ErrExtensionSet))
  else
    match playlistExtensions.find? (fun e => extensions.contains e) with
    | some e =>
      (lib, some (.wrap ("open library " ++ root ++ ": playlist extension \"" ++ e ++ "\": ")
        ErrExtensionsOverlap))
    | none =>
      if fs.isEmpty then
        (lib, some (.base ("open library " ++ root ++ ": " ++ ErrEmptyLibrary.message)))
      else
        buildEntries root extensions playlistExtensions fs lib
termination_by (sizeOf fs, 1)

/-- The `for _, f := range fs` loop of `NewLibrary`, with `lib` the
accumulator mutated by the loop body. On an error from a recursive call the
accumulated `lib` is returned alongside the wrapped error, exactly as the
source's early `return lib, fmt.Errorf(...)` does. -/
def buildEntries (root : String) (extensions playlistExtensions : List String)
    (fs : List DirEntry) (lib : Library) : Library × Option GoErr :=
  match fs with
  | [] => (lib, none)
  | .file name :: rest =>
    let e := extOf name
    let path := filepathJoin root name
    if extensions.contains e then
      buildEntries root extensions playlistExtensions rest
        (lib.addEntry (.media path (filepathBase path)))
    else if playlistExtensions.contains e then
      buildEntries root extensions playlistExtensions rest
        (lib.addEntry (.playlist [path] (filepathBase path)))
    else
      buildEntries root extensions playlistExtensions rest lib
  | .dir name listing :: rest =>
    let path := filepathJoin root name
    match NewLibrary path extensions playlistExtensions listing with
    | (_, some err) =>
      (lib, some (.wrap ("open library " ++ root ++ ": ") err))
    | (nest, none) =>
      buildEntries root extensions playlistExtensions rest (lib.addNested nest)
termination_by (sizeOf fs, 0)
end

/-- The classification the loop body applies to one non-directory entry:
media extension match gives a `mediaFile`, playlist extension match a
`playlistFile` (media tested first), anything else is skipped. -/
def classifyFile (root : String) (extensions playlistExtensions : List String)
    (name : String) : Option Playable :=
  let e := extOf name
  let path := filepathJoin root name
  if extensions.contains e then some (.media path (filepathBase path))
  else if playlistExtensions.contains e then some (.playlist [path] (filepathBase path))
  else none

/-- The entry list a successful traversal of `fs` produces: classified
files in listing order, directories contributing nothing. -/
def listingEntries (root : String) (extensions playlistExtensions : List String)
    (fs : List DirEntry) : List Playable :=
  fs.filterMap fun f =>
    match f with
    | .file n => classifyFile root extensions playlistExtensions n
    | .dir _ _ => none

/-- The root paths of the nested libraries a successful traversal of `fs`
produces: one per subdirectory, in listing order. -/
def dirJoins (root : String) (fs : List DirEntry) : List String :=
  fs.filterMap fun f =>
    match f with
    | .dir n _ => some (filepathJoin root n)
    | .file _ => none

/-- The paths a media-file or playlist entry carries (a library-valued
entry carries none in this sense). -/
def Playable.entryPaths : Playable → List String
  | .media p _ => [p]
  | .playlist ps _ => ps
  | .lib _ => []

mutual
/-- All paths of all media and playlist entries throughout the tree are
absolute. -/
def Library.allAbs : Library → Bool
  | .mk es ns _ =>
    es.all (fun e => e.entryPaths.all isAbs) && Library.allAbsList ns
termination_by l => sizeOf l

/-- Predicate `Library.allAbs` over a list of child libraries. -/
def Library.allAbsList : List Library → Bool
  | [] => true
  | l :: rest => l.allAbs && Library.allAbsList rest
termination_by ls => sizeOf ls
end

mutual
/-- Throughout the tree, `entries` holds only media and playlist files,
never a library (directory) value. -/
def Library.entriesOk : Library → Bool
  | .mk es ns _ =>
    es.all (fun e => !e.isLib) && Library.entriesOkList ns
termination_by l => sizeOf l

/-- Predicate `Library.entriesOk` over a list of child libraries. -/
def Library.entriesOkList : List Library → Bool
  | [] => true
  | l :: rest => l.entriesOk && Library.entriesOkList rest
termination_by ls => sizeOf ls
end

/-- The error `NewLibrary` returns for an empty directory listing:
`fmt.Errorf("open library %s: %s", root, ErrEmptyLibrary)` — the sentinel
is flattened into the message by `%s`, not wrapped. -/
def emptyLibraryErr (dir : String) : GoErr :=
  .base ("open library " ++ dir ++ ": " ++ ErrEmptyLibrary.message)

/-- The `%w` wrapper `fmt.Errorf("open library %s: %w", dir, e)`. -/
def openWrap (dir : String) (e : GoErr) : GoErr :=
  .wrap ("open library " ++ dir ++ ": ") e

@[simp] theorem entries_mk (es : List Playable) (ns : List Library) (r : String) :
    (Library.mk es ns r).entries = es := rfl

@[simp] theorem nested_mk (es : List Playable) (ns : List Library) (r : String) :
    (Library.mk es ns r).nested = ns := rfl

@[simp] theorem root_mk (es : List Playable) (ns : List Library) (r : String) :
    (Library.mk es ns r).root = r := rfl

@[simp] theorem addEntry_mk (es : List Playable) (ns : List Library) (r : String)
    (p : Playable) : (Library.mk es ns r).addEntry p = Library.mk (es ++ [p]) ns r := rfl

@[simp] theorem addNested_mk (es : List Playable) (ns : List Library) (r : String)
    (x : Library) : (Library.mk es ns r).addNested x = Library.mk es (ns ++ [x]) r := rfl

/-- The loop never changes the accumulator's root field. -/
theorem buildEntries_root (root : String) (exts pexts : List String)
    (fs : List DirEntry) (lib : Library) :
    (buildEntries root exts pexts fs lib).1.root = lib.root := by
  induction fs generalizing lib with
  | nil => simp [buildEntries]
  | cons f rest ih =>
    cases f with
    | file name =>
      cases lib with
      | mk es ns r =>
        simp only [buildEntries]
        split
        · rw [ih]; rfl
        · split
          · rw [ih]; rfl
          · rw [ih]
    | dir name listing =>
      cases lib with
      | mk es ns r =>
        rcases hN : NewLibrary (filepathJoin root name) exts pexts listing with ⟨nest, err⟩
        cases err with
        | none => simp only [buildEntries, hN]; rw [ih]; rfl
        | some e => simp only [buildEntries, hN]

/-- Whatever happens, the returned library's root is the requested root. -/
theorem NewLibrary_root (root : String) (exts pexts : List String) (fs : List DirEntry) :
    (NewLibrary root exts pexts fs).1.root = root := by
  simp only [NewLibrary]
  split
  · rfl
  · split
    · rfl
    · split
      · rfl
      · rw [buildEntries_root]; rfl

/-- Accumulator lemma: running the loop on any starting accumulator is the
run on the empty accumulator with its results appended after the starting
entries and children; the error outcome does not depend on the accumulator. -/
theorem buildEntries_acc (root : String) (exts pexts : List String)
    (fs : List DirEntry) :
    ∀ (es : List Playable) (ns : List Library) (r : String) (res : Library)
      (err : Option GoErr),
      buildEntries root exts pexts fs (Library.mk [] [] r) = (res, err) →
      buildEntries root exts pexts fs (Library.mk es ns r)
        = (Library.mk (es ++ res.entries) (ns ++ res.nested) r, err) := by
  induction fs with
  | nil =>
    intro es ns r res err h
    simp only [buildEntries] at h ⊢
    cases h
    simp
  | cons f rest ih =>
    intro es ns r res err h
    cases f with
    | file name =>
      simp only [buildEntries, addEntry_mk, List.nil_append] at h ⊢
      rcases h0 : buildEntries root exts pexts rest (Library.mk [] [] r) with ⟨res0, err0⟩
      split at h
      · rw [ih _ _ _ _ _ h0] at h
        cases h
        rename_i hc
        rw [if_pos hc]
        rw [ih _ _ _ _ _ h0]
        simp
      · split at h
        · rename_i hc1 hc2
          rw [ih _ _ _ _ _ h0] at h
          cases h
          rw [if_neg hc1, if_pos hc2]
          rw [ih _ _ _ _ _ h0]
          simp
        · rename_i hc1 hc2
          rw [if_neg hc1, if_neg hc2]
          exact ih _ _ _ _ _ h
    | dir name listing =>
      rcases hN : NewLibrary (filepathJoin root name) exts pexts listing with ⟨nest, errN⟩
      cases errN with
      | some e =>
        simp only [buildEntries, hN, addNested_mk, List.nil_append] at h ⊢
        cases h
        simp
      | none =>
        simp only [buildEntries, hN, addNested_mk, List.nil_append] at h ⊢
        rcases h0 : buildEntries root exts pexts rest (Library.mk [] [] r) with ⟨res0, err0⟩
        rw [ih _ _ _ _ _ h0] at h
        cases h
        rw [ih _ _ _ _ _ h0]
        simp

theorem classifyFile_media {exts : List String} {n : String}
    (root : String) (pexts : List String) (hc : exts.contains (extOf n) = true) :
    classifyFile root exts pexts n
      = some (.media (filepathJoin root n) (filepathBase (filepathJoin root n))) := by
  have : extOf n ∈ exts := by simpa using hc
  simp [classifyFile, this]

theorem classifyFile_playlist {exts pexts : List String} {n : String}
    (root : String) (hc1 : exts.contains (extOf n) = false)
    (hc2 : pexts.contains (extOf n) = true) :
    classifyFile root exts pexts n
      = some (.playlist [filepathJoin root n] (filepathBase (filepathJoin root n))) := by
  have h1 : ¬ (extOf n ∈ exts) := by simpa using hc1
  have h2 : extOf n ∈ pexts := by simpa using hc2
  simp [classifyFile, h1, h2]

theorem classifyFile_none {exts pexts : List String} {n : String}
    (root : String) (hc1 : exts.contains (extOf n) = false)
    (hc2 : pexts.contains (extOf n) = false) :
    classifyFile root exts pexts n = none := by
  have h1 : ¬ (extOf n ∈ exts) := by simpa using hc1
  have h2 : ¬ (extOf n ∈ pexts) := by simpa using hc2
  simp [classifyFile, h1, h2]

@[simp] theorem listingEntries_nil (root : String) (exts pexts : List String) :
    listingEntries root exts pexts [] = [] := rfl

theorem listingEntries_cons_file (root : String) (exts pexts : List String)
    (n : String) (rest : List DirEntry) :
    listingEntries root exts pexts (.file n :: rest)
      = match classifyFile root exts pexts n with
        | some p => p :: listingEntries root exts pexts rest
        | none => listingEntries root exts pexts rest := by
  simp only [listingEntries, List.filterMap_cons]
  rcases classifyFile root exts pexts n with _ | p <;> rfl

@[simp] theorem listingEntries_cons_dir (root : String) (exts pexts : List String)
    (n : String) (cs : List DirEntry) (rest : List DirEntry) :
    listingEntries root exts pexts (.dir n cs :: rest)
      = listingEntries root exts pexts rest := by
  simp [listingEntries, List.filterMap_cons]

@[simp] theorem dirJoins_nil (root : String) : dirJoins root [] = [] := rfl

@[simp] theorem dirJoins_cons_file (root : String) (n : String) (rest : List DirEntry) :
    dirJoins root (.file n :: rest) = dirJoins root rest := by
  simp [dirJoins, List.filterMap_cons]

@[simp] theorem dirJoins_cons_dir (root : String) (n : String) (cs : List DirEntry)
    (rest : List DirEntry) :
    dirJoins root (.dir n cs :: rest) = filepathJoin root n :: dirJoins root rest := by
  simp [dirJoins, List.filterMap_cons]

/-- A successful loop over `fs` yields exactly the classified files as
entries and one nested library per subdirectory, each built by a
successful recursive `NewLibrary` call, all in listing order. -/
theorem buildEntries_success (root : String) (exts pexts : List String)
    (fs : List DirEntry) :
    ∀ (r : String) (res : Library),
      buildEntries root exts pexts fs (Library.mk [] [] r) = (res, none) →
      res.entries = listingEntries root exts pexts fs ∧
      res.nested.map Library.root = dirJoins root fs ∧
      ∀ x ∈ res.nested, ∃ name cs, DirEntry.dir name cs ∈ fs ∧
        NewLibrary (filepathJoin root name) exts pexts cs = (x, none) := by
  induction fs with
  | nil =>
    intro r res h
    simp only [buildEntries] at h
    cases h
    simp
  | cons f rest ih =>
    intro r res h
    cases f with
    | file name =>
      simp only [buildEntries, addEntry_mk, List.nil_append] at h
      rcases h0 : buildEntries root exts pexts rest (Library.mk [] [] r) with ⟨res0, err0⟩
      split at h
      · rename_i hc
        rw [buildEntries_acc _ _ _ _ _ _ _ _ _ h0] at h
        injection h with h1 h2
        subst h2
        subst h1
        obtain ⟨ih1, ih2, ih3⟩ := ih r res0 h0
        refine ⟨?_, ?_, ?_⟩
        · simp [listingEntries_cons_file, classifyFile_media root pexts hc, ih1]
        · simpa using ih2
        · intro x hx
          simp only [nested_mk, List.nil_append] at hx
          obtain ⟨nm, cs, hmem, hsub⟩ := ih3 x hx
          exact ⟨nm, cs, List.mem_cons_of_mem _ hmem, hsub⟩
      · split at h
        · rename_i hc1 hc2
          rw [buildEntries_acc _ _ _ _ _ _ _ _ _ h0] at h
          injection h with h1 h2
          subst h2
          subst h1
          obtain ⟨ih1, ih2, ih3⟩ := ih r res0 h0
          refine ⟨?_, ?_, ?_⟩
          · simp [listingEntries_cons_file,
              classifyFile_playlist root (Bool.not_eq_true _ ▸ hc1 : _) hc2, ih1]
          · simpa using ih2
          · intro x hx
            simp only [nested_mk, List.nil_append] at hx
            obtain ⟨nm, cs, hmem, hsub⟩ := ih3 x hx
            exact ⟨nm, cs, List.mem_cons_of_mem _ hmem, hsub⟩
        · rename_i hc1 hc2
          obtain ⟨ih1, ih2, ih3⟩ := ih r res h
          refine ⟨?_, ?_, ?_⟩
          · rw [ih1, listingEntries_cons_file,
              classifyFile_none root (by simpa using hc1) (by simpa using hc2)]
          · simpa using ih2
          · intro x hx
            obtain ⟨nm, cs, hmem, hsub⟩ := ih3 x hx
            exact ⟨nm, cs, List.mem_cons_of_mem _ hmem, hsub⟩
    | dir name listing =>
      rcases hN : NewLibrary (filepathJoin root name) exts pexts listing with ⟨nest, errN⟩
      cases errN with
      | some e =>
        simp only [buildEntries, hN] at h
        simp at h
      | none =>
        simp only [buildEntries, hN, addNested_mk, List.nil_append] at h
        rcases h0 : buildEntries root exts pexts rest (Library.mk [] [] r) with ⟨res0, err0⟩
        rw [buildEntries_acc _ _ _ _ _ _ _ _ _ h0] at h
        injection h with h1 h2
        subst h2
        subst h1
        obtain ⟨ih1, ih2, ih3⟩ := ih r res0 h0
        have hroot : nest.root = filepathJoin root name := by
          have := NewLibrary_root (filepathJoin root name) exts pexts listing
          rw [hN] at this
          exact this
        refine ⟨?_, ?_, ?_⟩
        · simpa using ih1
        · simp [hroot, ih2]
        · intro x hx
          simp only [nested_mk, List.nil_append, List.cons_append] at hx
          rcases List.mem_cons.mp hx with rfl | hx'
          · exact ⟨name, listing, List.mem_cons_self _ _, hN⟩
          · obtain ⟨nm, cs, hmem, hsub⟩ := ih3 x hx'
            exact ⟨nm, cs, List.mem_cons_of_mem _ hmem, hsub⟩

/-- Full characterization of a successful `NewLibrary` call: the
configuration checks passed, the listing was non-empty, and the resulting
node has exactly the classified entries and the recursively built
children in listing order. -/
theorem NewLibrary_success (root : String) (exts pexts : List String)
    (fs : List DirEntry) (lib : Library)
    (h : NewLibrary root exts pexts fs = (lib, none)) :
    exts ≠ [] ∧ pexts.find? (fun e => exts.contains e) = none ∧ fs ≠ [] ∧
    lib.root = root ∧
    lib.entries = listingEntries root exts pexts fs ∧
    lib.nested.map Library.root = dirJoins root fs ∧
    ∀ x ∈ lib.nested, ∃ name cs, DirEntry.dir name cs ∈ fs ∧
      NewLibrary (filepathJoin root name) exts pexts cs = (x, none) := by
  simp only [NewLibrary] at h
  split at h
  · simp at h
  · rename_i hne
    split at h
    · simp at h
    · rename_i hfind
      split at h
      · simp at h
      · rename_i hfs
        obtain ⟨h1, h2, h3⟩ := buildEntries_success root exts pexts fs root lib h
        have hroot : lib.root = root := by
          have := buildEntries_root root exts pexts fs (Library.mk [] [] root)
          rw [h] at this
          exact this
        exact ⟨hne, hfind, by simpa [List.isEmpty_iff] using hfs, hroot, h1, h2, h3⟩

/-- The listing of a subdirectory occurring in `fs` is smaller than `fs`. -/
theorem sizeOf_listing_lt {name : String} {cs fs : List DirEntry}
    (h : DirEntry.dir name cs ∈ fs) : sizeOf cs < sizeOf fs := by
  have h1 := List.sizeOf_lt_of_mem h
  have h2 : sizeOf cs < sizeOf (DirEntry.dir name cs) := by
    simp only [DirEntry.dir.sizeOf_spec]
    omega
  omega

theorem entriesOkList_eq_all (ls : List Library) :
    Library.entriesOkList ls = ls.all Library.entriesOk := by
  induction ls with
  | nil => simp [Library.entriesOkList]
  | cons l rest ih => simp [Library.entriesOkList, ih]

theorem allAbsList_eq_all (ls : List Library) :
    Library.allAbsList ls = ls.all Library.allAbs := by
  induction ls with
  | nil => simp [Library.allAbsList]
  | cons l rest ih => simp [Library.allAbsList, ih]

theorem entriesOk_mk (es : List Playable) (ns : List Library) (r : String) :
    (Library.mk es ns r).entriesOk
      = (es.all (fun e => !e.isLib) && Library.entriesOkList ns) := by
  simp [Library.entriesOk]

theorem allAbs_mk (es : List Playable) (ns : List Library) (r : String) :
    (Library.mk es ns r).allAbs
      = (es.all (fun e => e.entryPaths.all isAbs) && Library.allAbsList ns) := by
  simp [Library.allAbs]

/-- Entries produced by classification are media or playlist files, and
every path they carry is the root joined with some filename. -/
theorem mem_listingEntries (root : String) (exts pexts : List String)
    (fs : List DirEntry) (e : Playable)
    (he : e ∈ listingEntries root exts pexts fs) :
    e.isLib = false ∧ ∀ p ∈ e.entryPaths, ∃ nm, p = filepathJoin root nm := by
  obtain ⟨f, hf, hsome⟩ := List.mem_filterMap.mp he
  cases f with
  | dir n cs => simp at hsome
  | file n =>
    simp only [classifyFile] at hsome
    split at hsome
    · cases hsome
      refine ⟨rfl, ?_⟩
      intro p hp
      simp only [Playable.entryPaths] at hp
      simp at hp
      exact ⟨n, hp⟩
    · split at hsome
      · cases hsome
        refine ⟨rfl, ?_⟩
        intro p hp
        simp only [Playable.entryPaths] at hp
        simp at hp
        exact ⟨n, hp⟩
      · cases hsome

/-- Joining a name onto an absolute directory path stays absolute. -/
theorem isAbs_join {root : String} (h : isAbs root = true) (name : String) :
    isAbs (filepathJoin root name) = true := by
  unfold filepathJoin
  split
  · rename_i h0
    rw [h0] at h
    simp [isAbs] at h
  · split
    · exact h
    · unfold isAbs at h ⊢
      rcases hd : root.data with _ | ⟨c, t⟩
      · rw [hd] at h
        simp at h
      · rw [hd] at h
        have hdata : (root ++ "/" ++ name).data = c :: (t ++ "/".data ++ name.data) := by
          rw [String.data_append, String.data_append, hd]
          simp
        rw [hdata]
        exact h

/-- Recursive invariant: a successful build never stores a library value
in `entries`, at any depth (size-bounded strong induction). -/
theorem NewLibrary_entriesOk_aux :
    ∀ (n : Nat) (fs : List DirEntry), sizeOf fs ≤ n →
    ∀ (root : String) (exts pexts : List String) (lib : Library),
      NewLibrary root exts pexts fs = (lib, none) → lib.entriesOk = true := by
  intro n
  induction n with
  | zero =>
    intro fs hle
    exact absurd hle (by cases fs <;> simp_arith)
  | succ n ih =>
    intro fs hle root exts pexts lib h
    obtain ⟨-, -, -, -, hentries, -, hnested⟩ := NewLibrary_success root exts pexts fs lib h
    cases lib with
    | mk es ns r =>
      rw [entriesOk_mk, Bool.and_eq_true, List.all_eq_true, entriesOkList_eq_all,
        List.all_eq_true]
      constructor
      · intro e he
        have := (mem_listingEntries root exts pexts fs e (by
          rw [← hentries]; simpa using he)).1
        simp [this]
      · intro x hx
        obtain ⟨nm, cs, hmem, hsub⟩ := hnested x (by simpa using hx)
        have hlt : sizeOf cs < sizeOf fs := sizeOf_listing_lt hmem
        exact ih cs (by omega) _ _ _ _ hsub

/-- Recursive invariant: if the requested root is an absolute path, every
media and playlist path in the whole successful tree is absolute. -/
theorem NewLibrary_allAbs_aux :
    ∀ (n : Nat) (fs : List DirEntry), sizeOf fs ≤ n →
    ∀ (root : String) (exts pexts : List String) (lib : Library),
      isAbs root = true →
      NewLibrary root exts pexts fs = (lib, none) → lib.allAbs = true := by
  intro n
  induction n with
  | zero =>
    intro fs hle
    exact absurd hle (by cases fs <;> simp_arith)
  | succ n ih =>
    intro fs hle root exts pexts lib habs h
    obtain ⟨-, -, -, -, hentries, -, hnested⟩ := NewLibrary_success root exts pexts fs lib h
    cases lib with
    | mk es ns r =>
      rw [allAbs_mk, Bool.and_eq_true, List.all_eq_true, allAbsList_eq_all,
        List.all_eq_true]
      constructor
      · intro e he
        rw [List.all_eq_true]
        intro p hp
        obtain ⟨nm, rfl⟩ := (mem_listingEntries root exts pexts fs e (by
          rw [← hentries]; simpa using he)).2 p hp
        exact isAbs_join habs nm
      · intro x hx
        obtain ⟨nm, cs, hmem, hsub⟩ := hnested x (by simpa using hx)
        have hlt : sizeOf cs < sizeOf fs := sizeOf_listing_lt hmem
        exact ih cs (by omega) _ _ _ _ (isAbs_join habs nm) hsub

/-- A listing consisting solely of files that match neither extension set
is traversed without effect: nothing is appended and no error arises. -/
theorem buildEntries_skip (root : String) (exts pexts : List String)
    (names : List String) :
    ∀ lib : Library,
      (∀ nm ∈ names, exts.contains (extOf nm) = false ∧
        pexts.contains (extOf nm) = false) →
      buildEntries root exts pexts (names.map DirEntry.file) lib = (lib, none) := by
  induction names with
  | nil =>
    intro lib h
    simp [buildEntries]
  | cons nm rest ih =>
    intro lib h
    obtain ⟨h1, h2⟩ := h nm (List.mem_cons_self _ _)
    simp only [List.map_cons, buildEntries]
    rw [if_neg (by simpa using h1), if_neg (by simpa using h2)]
    exact ih lib (fun x hx => h x (List.mem_cons_of_mem _ hx))

theorem cutExt_no_dot : ∀ l : List Char, '.' ∉ l → cutExt l = "" := by
  intro l h
  induction l with
  | nil => rfl
  | cons c rest ih =>
    simp only [cutExt]
    rw [if_neg (by intro hEq; exact h (hEq ▸ List.mem_cons_self _ _))]
    exact ih (fun hm => h (List.mem_cons_of_mem _ hm))

theorem cutExt_first_dot : ∀ (a b : List Char), '.' ∉ a →
    cutExt (a ++ '.' :: b) = String.mk b := by
  intro a b h
  induction a with
  | nil => simp [cutExt]
  | cons c rest ih =>
    simp only [List.cons_append, cutExt]
    rw [if_neg (by intro hEq; exact h (hEq ▸ List.mem_cons_self _ _))]
    exact ih (fun hm => h (List.mem_cons_of_mem _ hm))

theorem Files_eq_media_join (l : Library) :
    l.Files = ((l.entries.filter Playable.isMedia).map Playable.Files).flatten := by
  cases l with
  | mk es ns r =>
    simp only [Library.Files, entries_mk]
    induction es with
    | nil => rfl
    | cons p rest ih =>
      cases p with
      | media q t => simp [Playable.isMedia, Playable.Files, List.filterMap_cons, ih]
      | playlist ps t => simp [Playable.isMedia, List.filterMap_cons, ih]
      | lib x => simp [Playable.isMedia, List.filterMap_cons, ih]

/-- C1: for every Library node, `Files()` returns exactly the paths of its
direct media-file entries, in entry order, excluding playlist entries and
nested children; on the example directory `a.mp3`, `b.m3u`, `c.png` with
media extension `mp3` and playlist extension `m3u`, the build succeeds
with one media and one playlist entry, skips `c.png`, and `Files()` is
exactly `["/music/a.mp3"]`. -/
theorem claim_C1 :
    (∀ (l : Library) (s : String),
        s ∈ l.Files ↔ ∃ t, Playable.media s t ∈ l.entries) ∧
    (∀ l : Library,
        l.Files = ((l.entries.filter Playable.isMedia).map Playable.Files).flatten) ∧
    (NewLibrary "/music" ["mp3"] ["m3u"]
        [.file "a.mp3", .file "b.m3u", .file "c.png"]).2 = none ∧
    ((NewLibrary "/music" ["mp3"] ["m3u"]
        [.file "a.mp3", .file "b.m3u", .file "c.png"]).1.entries.filter
        Playable.isMedia).length = 1 ∧
    ((NewLibrary "/music" ["mp3"] ["m3u"]
        [.file "a.mp3", .file "b.m3u", .file "c.png"]).1.entries.filter
        Playable.isPlaylist).length = 1 ∧
    (NewLibrary "/music" ["mp3"] ["m3u"]
        [.file "a.mp3", .file "b.m3u", .file "c.png"]).1.entries.length = 2 ∧
    (NewLibrary "/music" ["mp3"] ["m3u"]
        [.file "a.mp3", .file "b.m3u", .file "c.png"]).1.Files = ["/music/a.mp3"] := by
  refine ⟨?_, Files_eq_media_join, ?_⟩
  · intro l s
    simp only [Library.Files, List.mem_filterMap]
    constructor
    · rintro ⟨p, hp, he⟩
      cases p with
      | media path t =>
        simp only [Option.some.injEq] at he
        exact ⟨t, he ▸ hp⟩
      | playlist ps t => simp at he
      | lib x => simp at he
    · rintro ⟨t, ht⟩
      exact ⟨.media s t, ht, rfl⟩
  · simp [NewLibrary, buildEntries, extOf, cutExt, filepathJoin, filepathBase,
      Library.Files, Playable.isMedia, Playable.isPlaylist]

/-- C1 witness: the general component of C1 instantiated at a concrete
library value. -/
theorem claim_C1_witness :
    "/music/a.mp3" ∈ (Library.mk [Playable.media "/music/a.mp3" "a.mp3"] [] "/music").Files
      ↔ ∃ t, Playable.media "/music/a.mp3" t
          ∈ (Library.mk [Playable.media "/music/a.mp3" "a.mp3"] [] "/music").entries :=
  claim_C1.1 (Library.mk [Playable.media "/music/a.mp3" "a.mp3"] [] "/music") "/music/a.mp3"

/-- C2: a directory with zero entries fails construction with the
EmptyLibrary error: at the root the error is returned directly; for a
nested empty directory the recursive failure is wrapped with each ancestor
path and aborts the whole build regardless of the remaining listing. -/
theorem claim_C2 :
    (∀ (root : String) (exts pexts : List String), exts ≠ [] →
        pexts.find? (fun e => exts.contains e) = none →
        NewLibrary root exts pexts []
          = (Library.mk [] [] root, some (emptyLibraryErr root))) ∧
    (∀ (root : String) (exts pexts : List String) (name : String) (rest : List DirEntry),
        exts ≠ [] → pexts.find? (fun e => exts.contains e) = none →
        NewLibrary root exts pexts (.dir name [] :: rest)
          = (Library.mk [] [] root,
             some (openWrap root (emptyLibraryErr (filepathJoin root name))))) ∧
    (NewLibrary "/m" ["mp3"] [] [.file "a.mp3", .dir "sub" [.dir "subsub" []]]).2
      = some (openWrap "/m" (openWrap "/m/sub" (emptyLibraryErr "/m/sub/subsub"))) := by
  refine ⟨?_, ?_, ?_⟩
  · intro root exts pexts h1 h2
    simp only [NewLibrary]
    rw [if_neg h1, h2]
    simp [emptyLibraryErr]
  · intro root exts pexts name rest h1 h2
    simp only [NewLibrary, buildEntries]
    rw [if_neg h1, h2]
    rw [if_neg h1]
    simp [emptyLibraryErr, openWrap]
  · simp [NewLibrary, buildEntries, extOf, cutExt, filepathJoin, emptyLibraryErr, openWrap]

/-- C2 witness: C2 applied at concrete configurations. -/
theorem claim_C2_witness :
    NewLibrary "/r" ["mp3"] ["m3u"] [] = (Library.mk [] [] "/r", some (emptyLibraryErr "/r")) ∧
    NewLibrary "/r" ["mp3"] ["m3u"] [DirEntry.dir "d" []]
      = (Library.mk [] [] "/r", some (openWrap "/r" (emptyLibraryErr (filepathJoin "/r" "d")))) :=
  ⟨claim_C2.1 "/r" ["mp3"] ["m3u"] (by decide) (by decide),
   claim_C2.2.1 "/r" ["mp3"] ["m3u"] "d" [] (by decide) (by decide)⟩

/-- C3 counterexample: a nested sub-library all of whose children are
further-nested empty directories does NOT succeed — the emptiness check
applies at every level, so the empty grandchild aborts the build of the
sub-library and of the whole tree. -/
theorem claim_C3_counterexample :
    (NewLibrary "/m/sub" ["mp3"] [] [.dir "empty" []]).2
      = some (openWrap "/m/sub" (emptyLibraryErr "/m/sub/empty")) ∧
    (NewLibrary "/m" ["mp3"] [] [.dir "sub" [.dir "empty" []]]).2
      = some (openWrap "/m" (openWrap "/m/sub" (emptyLibraryErr "/m/sub/empty"))) := by
  constructor
  · simp [NewLibrary, buildEntries, filepathJoin, emptyLibraryErr, openWrap]
  · simp [NewLibrary, buildEntries, filepathJoin, emptyLibraryErr, openWrap]

/-- C3 (amended): construction of a nested sub-library succeeds with zero
playable entries whenever it has at least one child and all of its
children are unrecognized-extension files; children that are empty
directories are not tolerated (see the counterexample). -/
theorem claim_C3 :
    ∀ (root : String) (exts pexts : List String) (names : List String),
      exts ≠ [] → pexts.find? (fun e => exts.contains e) = none → names ≠ [] →
      (∀ nm ∈ names, exts.contains (extOf nm) = false ∧
        pexts.contains (extOf nm) = false) →
      NewLibrary root exts pexts (names.map DirEntry.file)
        = (Library.mk [] [] root, none) := by
  intro root exts pexts names h1 h2 h3 h4
  simp only [NewLibrary]
  rw [if_neg h1, h2]
  rw [if_neg (by simp [List.isEmpty_iff, h3])]
  exact buildEntries_skip root exts pexts names _ h4

/-- C3 witness: a sub-library holding one unrecognized file is accepted
with no entries. -/
theorem claim_C3_witness :
    NewLibrary "/m/sub" ["mp3"] [] [DirEntry.file "cover.png"]
      = (Library.mk [] [] "/m/sub", none) :=
  claim_C3 "/m/sub" ["mp3"] [] ["cover.png"] (by decide) (by decide) (by decide)
    (by decide)

/-- C4: the playlist stub sets the playlist entry's title to
`filepath.Base(path)` — the filename WITH its extension — although both
the spec and the accessor's own documentation promise the filename
without the extension: for `b.m3u` the stored title is `"b.m3u"`,
not `"b"`. -/
theorem claim_C4 :
    (NewLibrary "/music" ["mp3"] ["m3u"] [.file "a.mp3", .file "b.m3u"]).2 = none ∧
    ((NewLibrary "/music" ["mp3"] ["m3u"] [.file "a.mp3", .file "b.m3u"]).1.entries.filter
        Playable.isPlaylist).map Playable.Title = ["b.m3u"] ∧
    "b.m3u" ≠ "b" := by
  refine ⟨?_, ?_, by decide⟩
  · simp [NewLibrary, buildEntries, extOf, cutExt, filepathJoin, filepathBase]
  · simp [NewLibrary, buildEntries, extOf, cutExt, filepathJoin, filepathBase,
      Playable.isPlaylist, Playable.Title]

/-- C5: the extension of a filename is the text after the first `.`; a
name with no `.` has the empty-string extension; with `""` among the
media extensions, the extensionless file `radio` is classified as media
and shows up in `Files()`. -/
theorem claim_C5 :
    (∀ name : String, '.' ∉ name.data → extOf name = "") ∧
    (∀ (a b : List Char), '.' ∉ a →
        extOf (String.mk (a ++ '.' :: b)) = String.mk b) ∧
    NewLibrary "/m" [""] [] [.file "radio"]
      = (Library.mk [Playable.media "/m/radio" "radio"] [] "/m", none) ∧
    (NewLibrary "/m" [""] [] [.file "radio"]).1.Files = ["/m/radio"] := by
  refine ⟨?_, ?_, ?_, ?_⟩
  · intro name h
    exact cutExt_no_dot name.data h
  · intro a b h
    exact cutExt_first_dot a b h
  · simp [NewLibrary, buildEntries, extOf, cutExt, filepathJoin, filepathBase]
  · simp [NewLibrary, buildEntries, extOf, cutExt, filepathJoin, filepathBase, Library.Files]

/-- C5 witness: the general extension rules applied to concrete names. -/
theorem claim_C5_witness :
    extOf "radio" = "" ∧
    extOf (String.mk (['a'] ++ '.' :: ['m', 'p', '3'])) = String.mk ['m', 'p', '3'] :=
  ⟨claim_C5.1 "radio" (by decide), claim_C5.2.1 ['a'] ['m', 'p', '3'] (by decide)⟩

/-- C6: whenever the playlist extension list shares an element with the
media extension list, construction fails with the ExtensionsOverlap error
(naming the first shared playlist extension), and the outcome is the same
for every filesystem — the check precedes any directory access. -/
theorem claim_C6 :
    ∀ (root : String) (exts pexts : List String) (fs : List DirEntry),
      (∃ e, e ∈ pexts ∧ e ∈ exts) →
      ∃ e, e ∈ pexts ∧ e ∈ exts ∧
        NewLibrary root exts pexts fs
          = (Library.mk [] [] root,
             some (.wrap ("open library " ++ root ++ ": playlist extension \"" ++ e ++ "\": ")
               ErrExtensionsOverlap)) ∧
        ∀ fs' : List DirEntry,
          (NewLibrary root exts pexts fs').2 = (NewLibrary root exts pexts fs).2 := by
  intro root exts pexts fs hshared
  obtain ⟨e0, he0p, he0e⟩ := hshared
  have hfind : (pexts.find? (fun e => exts.contains e)).isSome := by
    rw [List.find?_isSome]
    exact ⟨e0, he0p, by simpa using he0e⟩
  rcases hf : pexts.find? (fun e => exts.contains e) with _ | e1
  · rw [hf] at hfind
    simp at hfind
  · have h1 : e1 ∈ pexts := List.mem_of_find?_eq_some hf
    have h2 : e1 ∈ exts := by simpa using List.find?_some hf
    have hne : exts ≠ [] := by
      rintro rfl
      simp at h2
    refine ⟨e1, h1, h2, ?_, ?_⟩
    · simp only [NewLibrary]
      rw [if_neg hne, hf]
    · intro fs'
      simp only [NewLibrary, hf]

/-- C6 witness: C6 applied to a concrete overlapping configuration. -/
theorem claim_C6_witness :
    ∃ e, e ∈ ["mp3"] ∧ e ∈ ["mp3"] ∧
      NewLibrary "/r" ["mp3"] ["mp3"] [DirEntry.file "x.mp3"]
        = (Library.mk [] [] "/r",
           some (.wrap ("open library " ++ "/r" ++ ": playlist extension \"" ++ e ++ "\": ")
             ErrExtensionsOverlap)) ∧
      ∀ fs' : List DirEntry,
        (NewLibrary "/r" ["mp3"] ["mp3"] fs').2
          = (NewLibrary "/r" ["mp3"] ["mp3"] [DirEntry.file "x.mp3"]).2 :=
  claim_C6 "/r" ["mp3"] ["mp3"] [DirEntry.file "x.mp3"] ⟨"mp3", by decide, by decide⟩

/-- C7 counterexample: the constructor also accepts relative roots, and
then the produced paths are not absolute: with root `music` the build
succeeds and `Files()` returns the relative path `music/a.mp3`. -/
theorem claim_C7_counterexample :
    NewLibrary "music" ["mp3"] [] [.file "a.mp3"]
      = (Library.mk [Playable.media "music/a.mp3" "a.mp3"] [] "music", none) ∧
    (NewLibrary "music" ["mp3"] [] [.file "a.mp3"]).1.Files = ["music/a.mp3"] ∧
    isAbs "music/a.mp3" = false := by
  refine ⟨?_, ?_, by decide⟩
  · simp [NewLibrary, buildEntries, extOf, cutExt, filepathJoin, filepathBase]
  · simp [NewLibrary, buildEntries, extOf, cutExt, filepathJoin, filepathBase, Library.Files]

/-- C7 (amended): when the root path supplied to a successful construction
is absolute, every media-file path and playlist path throughout the tree
is absolute (`allAbs`), and consequently so is every path reported by any
node's `Files()`, at every nesting depth. -/
theorem claim_C7 :
    (∀ (root : String) (exts pexts : List String) (fs : List DirEntry) (lib : Library),
        isAbs root = true → NewLibrary root exts pexts fs = (lib, none) →
        lib.allAbs = true) ∧
    (∀ l : Library, l.allAbs = true →
        (∀ p ∈ l.Files, isAbs p = true) ∧ ∀ x ∈ l.nested, x.allAbs = true) := by
  constructor
  · intro root exts pexts fs lib habs h
    exact NewLibrary_allAbs_aux (sizeOf fs) fs le_rfl root exts pexts lib habs h
  · intro l hl
    cases l with
    | mk es ns r =>
      rw [allAbs_mk, Bool.and_eq_true, List.all_eq_true, allAbsList_eq_all,
        List.all_eq_true] at hl
      obtain ⟨hall, hns⟩ := hl
      constructor
      · intro p hp
        simp only [Library.Files, entries_mk] at hp
        obtain ⟨pl, hpl, hsome⟩ := List.mem_filterMap.mp hp
        cases pl with
        | media q t =>
          simp only [Option.some.injEq] at hsome
          have hq := hall _ hpl
          simp only [Playable.entryPaths, List.all_cons, List.all_nil,
            Bool.and_true] at hq
          exact hsome ▸ hq
        | playlist ps t => simp at hsome
        | lib x => simp at hsome
      · intro x hx
        exact hns x (by simpa using hx)

/-- C7 witness: on an absolute root, the whole built tree carries only
absolute paths. -/
theorem claim_C7_witness :
    ((NewLibrary "/m" ["mp3"] [] [.file "a.mp3", .dir "d" [.file "b.mp3"]]).1).allAbs
      = true := by
  have h : NewLibrary "/m" ["mp3"] [] [.file "a.mp3", .dir "d" [.file "b.mp3"]]
      = (Library.mk [Playable.media "/m/a.mp3" "a.mp3"]
          [Library.mk [Playable.media "/m/d/b.mp3" "b.mp3"] [] "/m/d"] "/m", none) := by
    simp [NewLibrary, buildEntries, extOf, cutExt, filepathJoin, filepathBase]
  rw [h]
  exact claim_C7.1 "/m" ["mp3"] [] [.file "a.mp3", .dir "d" [.file "b.mp3"]] _ (by decide) h

/-- C8: in a successful build, entries are only media and playlist files
(never library/directory values, recursively), nested children are
exactly the recursively built subdirectory libraries, and both sequences
preserve the order of the directory listing. -/
theorem claim_C8 :
    ∀ (root : String) (exts pexts : List String) (fs : List DirEntry) (lib : Library),
      NewLibrary root exts pexts fs = (lib, none) →
      lib.entriesOk = true ∧
      lib.entries = listingEntries root exts pexts fs ∧
      lib.nested.map Library.root = dirJoins root fs ∧
      ∀ x ∈ lib.nested, ∃ name cs, DirEntry.dir name cs ∈ fs ∧
        NewLibrary (filepathJoin root name) exts pexts cs = (x, none) := by
  intro root exts pexts fs lib h
  obtain ⟨-, -, -, -, h1, h2, h3⟩ := NewLibrary_success root exts pexts fs lib h
  exact ⟨NewLibrary_entriesOk_aux (sizeOf fs) fs le_rfl root exts pexts lib h, h1, h2, h3⟩

/-- C8 witness: C8 applied to a concrete mixed listing. -/
theorem claim_C8_witness :
    ((NewLibrary "/m" ["mp3"] ["m3u"]
        [.file "a.mp3", .dir "d" [.file "b.mp3"], .file "p.m3u"]).1).entriesOk = true ∧
    ((NewLibrary "/m" ["mp3"] ["m3u"]
        [.file "a.mp3", .dir "d" [.file "b.mp3"], .file "p.m3u"]).1).entries
      = listingEntries "/m" ["mp3"] ["m3u"]
          [.file "a.mp3", .dir "d" [.file "b.mp3"], .file "p.m3u"] := by
  have h : NewLibrary "/m" ["mp3"] ["m3u"]
        [.file "a.mp3", .dir "d" [.file "b.mp3"], .file "p.m3u"]
      = (Library.mk
          [Playable.media "/m/a.mp3" "a.mp3", Playable.playlist ["/m/p.m3u"] "p.m3u"]
          [Library.mk [Playable.media "/m/d/b.mp3" "b.mp3"] [] "/m/d"] "/m", none) := by
    simp [NewLibrary, buildEntries, extOf, cutExt, filepathJoin, filepathBase]
  constructor
  · rw [h]
    exact (claim_C8 "/m" ["mp3"] ["m3u"] _ _ h).1
  · rw [h]
    exact (claim_C8 "/m" ["mp3"] ["m3u"] _ _ h).2.1

/-- C9: when a later child's recursive build fails, the library value
returned with the error still holds the entries and nested children
appended before the failure — the error return is not atomic. -/
theorem claim_C9 :
    (NewLibrary "/m" ["mp3"] []
        [.file "a.mp3", .dir "good" [.file "b.mp3"], .dir "bad" []]).2.isSome = true ∧
    (NewLibrary "/m" ["mp3"] []
        [.file "a.mp3", .dir "good" [.file "b.mp3"], .dir "bad" []]).1.entries
      = [Playable.media "/m/a.mp3" "a.mp3"] ∧
    (NewLibrary "/m" ["mp3"] []
        [.file "a.mp3", .dir "good" [.file "b.mp3"], .dir "bad" []]).1.nested.map
        Library.root = ["/m/good"] := by
  refine ⟨?_, ?_, ?_⟩
  · simp [NewLibrary, buildEntries, extOf, cutExt, filepathJoin, filepathBase]
  · simp [NewLibrary, buildEntries, extOf, cutExt, filepathJoin, filepathBase]
  · simp [NewLibrary, buildEntries, extOf, cutExt, filepathJoin, filepathBase]

/-- C10: sentinel matching in the style of `errors.Is` detects the
EmptyExtensionSet and ExtensionsOverlap failures, whose sentinels are
wrapped with `%w`, but not the EmptyLibrary failure, whose sentinel is
flattened into the message with `%s` and absent from the unwrap chain. -/
theorem claim_C10 :
    (∀ (root : String) (pexts : List String) (fs : List DirEntry),
        ∃ er, (NewLibrary root [] pexts fs).2 = some er ∧
          er.is ErrExtensionSet = true ∧ er.is ErrEmptyLibrary = false) ∧
    (∀ (root : String) (exts pexts : List String) (fs : List DirEntry),
        (∃ e, e ∈ pexts ∧ e ∈ exts) →
        ∃ er, (NewLibrary root exts pexts fs).2 = some er ∧
          er.is ErrExtensionsOverlap = true ∧ er.is ErrEmptyLibrary = false) ∧
    (∀ (root : String) (exts pexts : List String),
        exts ≠ [] → pexts.find? (fun e => exts.contains e) = none →
        ∃ er, (NewLibrary root exts pexts []).2 = some er ∧
          er.is ErrEmptyLibrary = false ∧
          er.message = "open library " ++ root ++ ": " ++ ErrEmptyLibrary.message) := by
  refine ⟨?_, ?_, ?_⟩
  · intro root pexts fs
    refine ⟨.wrap ("open library " ++ root ++ ": ") ErrExtensionSet, ?_, ?_, ?_⟩
    · simp [NewLibrary]
    · simp [GoErr.is, ErrExtensionSet]
    · simp [GoErr.is, ErrExtensionSet, ErrEmptyLibrary]
  · intro root exts pexts fs hsh
    obtain ⟨e0, he0p, he0e⟩ := hsh
    have hfind : (pexts.find? (fun e => exts.contains e)).isSome := by
      rw [List.find?_isSome]
      exact ⟨e0, he0p, by simpa using he0e⟩
    rcases hf : pexts.find? (fun e => exts.contains e) with _ | e1
    · rw [hf] at hfind
      simp at hfind
    · have h2 : e1 ∈ exts := by simpa using List.find?_some hf
      have hne : exts ≠ [] := by
        rintro rfl
        simp at h2
      refine ⟨.wrap ("open library " ++ root ++ ": playlist extension \"" ++ e1 ++ "\": ")
        ErrExtensionsOverlap, ?_, ?_, ?_⟩
      · simp only [NewLibrary, hf]
        rw [if_neg hne]
      · simp [GoErr.is, ErrExtensionsOverlap]
      · simp [GoErr.is, ErrExtensionsOverlap, ErrEmptyLibrary]
  · intro root exts pexts h1 h2
    have hne2 : ("open library " ++ root ++ ": " ++ "library is empty")
        ≠ "library is empty" := by
      intro hEq
      have hd := congrArg String.data hEq
      rw [String.data_append, String.data_append, String.data_append] at hd
      have h0 : "open library ".data = 'o' :: "pen library ".data := by decide
      have h1' : "library is empty".data = 'l' :: "ibrary is empty".data := by decide
      rw [h0, h1'] at hd
      simp at hd
    refine ⟨.base ("open library " ++ root ++ ": " ++ "library is empty"), ?_, ?_, ?_⟩
    · simp only [NewLibrary]
      rw [if_neg h1, h2]
      simp [ErrEmptyLibrary, GoErr.message]
    · simp only [GoErr.is]
      rw [if_neg (by simp [ErrEmptyLibrary, hne2])]
    · simp [ErrEmptyLibrary, GoErr.message]

/-- C10 witness: the three error shapes at concrete configurations. -/
theorem claim_C10_witness :
    (∃ er, (NewLibrary "/w" [] ["m3u"] [DirEntry.file "x.mp3"]).2 = some er ∧
      er.is ErrExtensionSet = true ∧ er.is ErrEmptyLibrary = false) ∧
    (∃ er, (NewLibrary "/w" ["mp3"] ["mp3"] []).2 = some er ∧
      er.is ErrExtensionsOverlap = true ∧ er.is ErrEmptyLibrary = false) ∧
    (∃ er, (NewLibrary "/w" ["mp3"] ["m3u"] []).2 = some er ∧
      er.is ErrEmptyLibrary = false ∧
      er.message = "open library " ++ "/w" ++ ": " ++ ErrEmptyLibrary.message) :=
  ⟨claim_C10.1 "/w" ["m3u"] [DirEntry.file "x.mp3"],
   claim_C10.2.1 "/w" ["mp3"] ["mp3"] [] ⟨"mp3", by decide, by decide⟩,
   claim_C10.2.2 "/w" ["mp3"] ["m3u"] (by decide) (by decide)⟩

end Mumbledj
